import Mathlib

/-!
Verification development for the table-enhancement and dual-extraction
validation subsystem of the LF_Nigeria_Reports pipeline.

The definitions below are a shallow embedding of the Python source:
  * `src/src/utils/data_validation.py`   (sort_table_rows, normalize_state_names,
    filter_comparison_columns, validate_logical_consistency)
  * `src/src/utils/gemini_extractor.py`  (extract_table_with_gemini, parse_gemini_response)
  * `src/src/04b_LLM_Extraction_Supabase.py` (validate_extraction_results,
    process_single_report)
  * `src/src/03b_TableEnhancement_Supabase.py` (detect_green_rows)

Rows flow out of `parse_gemini_response` as dicts produced by
`TableRow.model_dump(by_alias=True)` from the Pydantic model, so every row
carries exactly the six string fields States, Suspected, Confirmed, Probable,
HCW, Deaths, in that insertion order; the embedding therefore uses a fixed
record with six `String` fields.

Modelling scope for Python string primitives: the reports' data is ASCII, so
`str.strip` / `str.lower` are embedded at ASCII fidelity (Unicode-only
behaviours such as non-ASCII case folding are out of scope), and `int(...)`
is embedded for the grammar `[+-]? digits` (Python's numeric-literal
underscores are out of scope).
-/

namespace LF

/-- Characters removed by Python `str.strip()` (ASCII whitespace). -/
def isPySpace (c : Char) : Bool :=
  c = ' ' || c = '\t' || c = '\n' || c = '\r' || c = '\x0b' || c = '\x0c'

/-- `str.strip()` on the character list: drop whitespace from both ends. -/
def stripChars (l : List Char) : List Char :=
  ((l.dropWhile isPySpace).reverse.dropWhile isPySpace).reverse

/-- Python `s.strip()`. -/
def pyStrip (s : String) : String := ⟨stripChars s.data⟩

/-- Python `s.lower()` (ASCII scope). -/
def pyLower (s : String) : String := ⟨s.data.map Char.toLower⟩

/-- Python `s.replace("-", " ")`: both pattern and replacement are single
characters, so this is a character map. -/
def hyphenToSpace (s : String) : String :=
  ⟨s.data.map (fun c => if c = '-' then ' ' else c)⟩

/-- Accumulating decimal-digit parser: fails on the first non-digit. -/
def parseDigitsAux : List Char → Nat → Option Nat
  | [], acc => some acc
  | c :: cs, acc =>
    if c.isDigit then parseDigitsAux cs (acc * 10 + (c.toNat - 48)) else none

/-- Parse a non-empty all-digit character list as a natural number. -/
def parseDigits (l : List Char) : Option Nat :=
  if l.isEmpty then none else parseDigitsAux l 0

/-- Sign handling of Python `int(s)` after whitespace stripping. -/
def pyIntAux : List Char → Option Int
  | [] => none
  | c :: rest =>
    if c = '+' then (parseDigits rest).map (fun n => (n : Int))
    else if c = '-' then (parseDigits rest).map (fun n => -(n : Int))
    else (parseDigits (c :: rest)).map (fun n => (n : Int))

/-- Python `int(s)`: strip whitespace, optional sign, decimal digits;
`none` models the `ValueError` raised on any other input. -/
def pyInt (s : String) : Option Int := pyIntAux (stripChars s.data)

/-- Decimal digit character (argument taken mod the 0..9 range). -/
def digitChar : Nat → Char
  | 0 => '0' | 1 => '1' | 2 => '2' | 3 => '3' | 4 => '4'
  | 5 => '5' | 6 => '6' | 7 => '7' | 8 => '8' | _ => '9'

/-- Decimal digits of `n`, most significant first; `fuel` bounds the
recursion depth so the definition stays structurally recursive (any
`fuel > n` gives the exact digits). -/
def natToCharsAux : Nat → Nat → List Char
  | 0, _ => []
  | fuel + 1, n =>
    if n < 10 then [digitChar n]
    else natToCharsAux fuel (n / 10) ++ [digitChar (n % 10)]

/-- Decimal representation of a natural number, as characters. -/
def natToChars (n : Nat) : List Char := natToCharsAux (n + 1) n

/-- Python `str(i)` for an integer `i`. -/
def intStr (n : Int) : String :=
  if n < 0 then ⟨'-' :: natToChars n.natAbs⟩ else ⟨natToChars n.natAbs⟩

/-- One extracted table row: the dict produced by
`TableRow.model_dump(by_alias=True)` — six string-valued fields. -/
structure Row where
  States : String
  Suspected : String
  Confirmed : String
  Probable : String
  HCW : String
  Deaths : String
deriving DecidableEq, Repr, Inhabited

/-- `row.get(field, "0").strip() or "0"` — the string handed to `int(...)`
by `validate_logical_consistency`. -/
def stripOrZero (s : String) : String :=
  let t := pyStrip s
  if t = "" then "0" else t

/-- `int(row.get(field, "0").strip() or "0")` with `none` for the
`ValueError` branch. -/
def parseField (s : String) : Option Int := pyInt (stripOrZero s)

/-- The numeric value `validate_logical_consistency` works with: the parsed
field, or 0 when parsing raised `ValueError`. -/
def fieldVal (s : String) : Int := (parseField s).getD 0

/-- The error messages appended by `validate_logical_consistency`, one
constructor per `error_messages.append(...)` site (the Python side renders
these as f-strings; only their identity and count matter here).  `rowIdx` is
the 0-based loop index (the messages print `i+1`). -/
inductive ErrMsg where
  | nonNumeric (field : String) (rowIdx : Nat) (state : String) (value : String)
  | negativeValues (rowIdx : Nat) (state : String)
  | suspectedLtConfirmed (rowIdx : Nat) (state : String) (suspected confirmed : Int)
  | confirmedLtDeaths (rowIdx : Nat) (state : String) (confirmed deaths : Int)
deriving DecidableEq, Repr

/-- The skip guard at the top of the validation loop:
`not row.get("States", "").strip() or row.get("States", "").strip().lower() == "total"`. -/
def skipRow (r : Row) : Bool :=
  pyStrip r.States = "" || pyLower (pyStrip r.States) = "total"

/-- The body of `validate_logical_consistency`'s loop for one row at index
`i`: parse the three compared fields (defaulting to 0 with an error on
`ValueError`), clamp negatives (writing all three fields back), then repair
`Suspected < Confirmed` and `Confirmed < Deaths` in that order.  Python
mutates `validated_rows[i]` in place; all the numeric checks read the local
variables, so computing the final row from the initial one is exact. -/
def validateRow (i : Nat) (row : Row) : Row × List ErrMsg :=
  if skipRow row then (row, [])
  else
    let (suspected, es) :=
      match parseField row.Suspected with
      | some n => (n, ([] : List ErrMsg))
      | none => (0, [ErrMsg.nonNumeric "Suspected" i row.States row.Suspected])
    let (confirmed, ec) :=
      match parseField row.Confirmed with
      | some n => (n, ([] : List ErrMsg))
      | none => (0, [ErrMsg.nonNumeric "Confirmed" i row.States row.Confirmed])
    let (deaths, ed) :=
      match parseField row.Deaths with
      | some n => (n, ([] : List ErrMsg))
      | none => (0, [ErrMsg.nonNumeric "Deaths" i row.States row.Deaths])
    let negFlag := suspected < 0 || confirmed < 0 || deaths < 0
    let en := if negFlag then [ErrMsg.negativeValues i row.States] else []
    let suspected1 := if negFlag then max 0 suspected else suspected
    let confirmed1 := if negFlag then max 0 confirmed else confirmed
    let deaths1 := if negFlag then max 0 deaths else deaths
    let row1 :=
      if negFlag then
        { row with
            Suspected := intStr suspected1
            Confirmed := intStr confirmed1
            Deaths := intStr deaths1 }
      else row
    let esc :=
      if suspected1 < confirmed1 then
        [ErrMsg.suspectedLtConfirmed i row.States suspected1 confirmed1]
      else []
    let row2 :=
      if suspected1 < confirmed1 then { row1 with Suspected := intStr confirmed1 } else row1
    let ecd :=
      if confirmed1 < deaths1 then
        [ErrMsg.confirmedLtDeaths i row.States confirmed1 deaths1]
      else []
    let row3 :=
      if confirmed1 < deaths1 then { row2 with Confirmed := intStr deaths1 } else row2
    (row3, es ++ ec ++ ed ++ en ++ esc ++ ecd)

/-- The validation loop over all rows, carrying the `enumerate` index. -/
def validateFrom : Nat → List Row → List Row × List ErrMsg
  | _, [] => ([], [])
  | i, r :: rs =>
    let p := validateRow i r
    let rest := validateFrom (i + 1) rs
    (p.1 :: rest.1, p.2 ++ rest.2)

/-- `validate_logical_consistency(rows)` from `src/src/utils/data_validation.py`:
returns `(is_valid, validated_rows, error_messages)`.  In the source,
`is_valid` is set to `False` exactly at the program points that append an
error message, so `is_valid` is the emptiness of the message list. -/
def validate_logical_consistency (rows : List Row) : Bool × List Row × List ErrMsg :=
  let p := validateFrom 0 rows
  (p.2.isEmpty, p.1, p.2)

/-- Specification predicate (not from the source): a row that the
validation loop inspects (non-blank, non-Total state) and that trips at
least one of its error sites — an unparseable compared field, a negative
parsed value, or a violation of `Suspected ≥ Confirmed` or
`Confirmed ≥ Deaths` on the clamped values.  `validate_logical_consistency`
reports `is_valid = False` exactly when some input row satisfies this. -/
def rowViolates (r : Row) : Bool :=
  !skipRow r &&
    ((parseField r.Suspected).isNone || (parseField r.Confirmed).isNone ||
      (parseField r.Deaths).isNone ||
      fieldVal r.Suspected < 0 || fieldVal r.Confirmed < 0 || fieldVal r.Deaths < 0 ||
      max 0 (fieldVal r.Suspected) < max 0 (fieldVal r.Confirmed) ||
      max 0 (fieldVal r.Confirmed) < max 0 (fieldVal r.Deaths))

/-- `row.get("States", "").strip().lower() == "total"` — the Total-row test
used by `sort_table_rows`. -/
def isTotalRow (r : Row) : Bool := pyLower (pyStrip r.States) = "total"

/-- `any(str(row.get(k, "")).strip() for k in row if k != "States")`: some
non-State field has a non-blank value (the row's keys are the six model
fields, so the generator ranges over the five count fields). -/
def hasNonStateContent (r : Row) : Bool :=
  pyStrip r.Suspected ≠ "" || pyStrip r.Confirmed ≠ "" || pyStrip r.Probable ≠ "" ||
    pyStrip r.HCW ≠ "" || pyStrip r.Deaths ≠ ""

/-- The `non_total_rows` comprehension filter in `sort_table_rows`:
non-blank state, not the Total row, and at least one non-State field
non-blank. -/
def keepRow (r : Row) : Bool :=
  pyStrip r.States ≠ "" && !isTotalRow r && hasNonStateContent r

/-- The sort key `lambda x: x["States"].strip().lower()`. -/
def sortKey (r : Row) : String := pyLower (pyStrip r.States)

/-- Lexicographic `≤` on character lists by code point — Python's `str`
comparison. -/
def charListLe : List Char → List Char → Bool
  | [], _ => true
  | _ :: _, [] => false
  | c :: cs, d :: ds =>
    if c.toNat < d.toNat then true
    else if d.toNat < c.toNat then false
    else charListLe cs ds

/-- Row comparison used to model Python's ascending stable sort by
`sortKey`. -/
def rowLe (a b : Row) : Prop := charListLe (sortKey a).data (sortKey b).data = true

instance : DecidableRel rowLe :=
  fun a b => inferInstanceAs (Decidable (charListLe (sortKey a).data (sortKey b).data = true))

/-- `sort_table_rows(table_rows)` from `src/src/utils/data_validation.py`:
keep the Total rows aside, filter the remaining rows, sort them by the
case-insensitive stripped state name (Python's `sorted` is a stable
ascending sort, which `List.insertionSort` with a `≤`-style relation
reproduces), and append the Total rows at the end (`extend` of an empty
list is the identity, so the `if total_rows:` guard is immaterial). -/
def sort_table_rows (table_rows : List Row) : List Row :=
  let total_rows := table_rows.filter isTotalRow
  let non_total_rows := table_rows.filter keepRow
  let sorted_rows := List.insertionSort rowLe non_total_rows
  sorted_rows ++ total_rows

/-- `new_row["States"].lower().replace("-", " ")`. -/
def normState (s : String) : String := hyphenToSpace (pyLower s)

/-- Specification predicate (not from the source): the ordering key the
spec claims for the comparison pipeline — "lower-cased state name with
hyphens replaced by spaces" — as a `≤` test between two state names. -/
def claimKeyLe (s t : String) : Bool :=
  charListLe (normState s).data (normState t).data

/-- One step of `normalize_state_names`: the state name is rewritten only
when `"States" in new_row and new_row["States"]` — the field is always
present, so only Python truthiness (non-emptiness) matters. -/
def normalizeRow (r : Row) : Row :=
  if r.States ≠ "" then { r with States := normState r.States } else r

/-- `normalize_state_names(rows)` from `src/src/utils/data_validation.py`. -/
def normalize_state_names (rows : List Row) : List Row := rows.map normalizeRow

/-- A row restricted to the comparison columns
`["States", "Suspected", "Confirmed", "Deaths"]`; all four keys are always
present in a full `Row`, so each filtered dict has exactly these fields. -/
structure CmpRow where
  States : String
  Suspected : String
  Confirmed : String
  Deaths : String
deriving DecidableEq, Repr

/-- The per-row column restriction inside `filter_comparison_columns`. -/
def toCmpRow (r : Row) : CmpRow := ⟨r.States, r.Suspected, r.Confirmed, r.Deaths⟩

/-- `filter_comparison_columns(rows)` from `src/src/utils/data_validation.py`.
In the source the `return filtered_rows` statement is indented inside the
`for row in rows:` body (line 118), so the function returns right after
appending the first filtered row; on an empty list the loop body never runs
and the function falls off the end, returning Python `None` — hence the
`Option` result. -/
def filter_comparison_columns (rows : List Row) : Option (List CmpRow) :=
  match rows with
  | [] => none
  | r :: _ => some [toCmpRow r]

/-!
The dual-extraction reconciler of `src/src/04b_LLM_Extraction_Supabase.py`.

One Gemini call followed by its parse is abstracted as a `CallOutcome`:
`extractFail` models `extract_table_with_gemini` returning `success=False`
(the response is then not appended to `responses`), `parseFail` models a
successful extraction whose `parse_gemini_response` returns `success=False`,
and `rowsOk` carries the parsed row dicts.  An environment `Nat → CallOutcome`
gives the outcome of the k-th Gemini call of the whole
`process_single_report` run (two calls per loop iteration).
-/

inductive CallOutcome where
  | extractFail
  | parseFail
  | rowsOk (data : List Row)
deriving Repr

/-- The rows reaching `parsed_data` from one call, if both steps succeeded. -/
def CallOutcome.rowsOf : CallOutcome → Option (List Row)
  | .rowsOk d => some d
  | _ => none

/-- The two possible returns of `validate_extraction_results`:
`retrySignal` is the early `return True, None` (a 2-tuple), `sixTuple` the
final `return dict_rows_1, dict_rows_2, normalized_1, normalized_2,
comparison_1, comparison_2` (a 6-tuple). -/
inductive VEResult where
  | retrySignal
  | sixTuple (d1 d2 n1 n2 : List Row) (c1 c2 : Option (List CmpRow))
deriving Repr

/-- `validate_extraction_results(parsed_data, ...)` from
`src/src/04b_LLM_Extraction_Supabase.py` (lines 178-245), for the caller's
case `parsed_data = [dict_rows_1, dict_rows_2]` (the caller reaches it only
with exactly two parsed results, so the `len(parsed_data) < 2` guard is not
modelled).  The local `attempt += 1` before the early return has no effect
outside the function and is omitted. -/
def validate_extraction_results (d1 d2 : List Row) (attempt maxAttempts : Nat) :
    VEResult :=
  let v1 := validate_logical_consistency d1
  let v2 := validate_logical_consistency d2
  if !v1.1 && !v2.1 && attempt < maxAttempts then VEResult.retrySignal
  else
    let pair :=
      if v1.1 && !v2.1 then (d1, v1.2.1)
      else if !v1.1 && v2.1 then (v2.2.1, d2)
      else if !v1.1 && !v2.1 then (v1.2.1, v2.2.1)
      else (d1, d2)
    let n1 := normalize_state_names (sort_table_rows pair.1)
    let n2 := normalize_state_names (sort_table_rows pair.2)
    VEResult.sixTuple pair.1 pair.2 n1 n2
      (filter_comparison_columns n1) (filter_comparison_columns n2)

/-- Observable outcome of one `process_single_report` call:
the returned boolean, the rows handed to `save_extracted_data_to_csv`
(if any; file I/O itself is modelled as succeeding), the number of
`extract_table_with_gemini` calls made, and the number of times the
`comparison_1 == comparison_2` check was evaluated. -/
structure ProcTrace where
  result : Bool
  savedCsv : Option (List Row)
  extractCalls : Nat
  comparisons : Nat
deriving DecidableEq, Repr

/-- `max_attempts = 3` in `process_single_report`. -/
def maxAttemptsConst : Nat := 3

/-- The `while attempt <= max_attempts` loop of `process_single_report`
(lines 326-393), with `fuel = max_attempts - attempt + 1` making the
recursion structural.  Control flow mirrored from the source:
  * if either of the two calls fails to extract or parse, `attempt += 1`
    and `continue`;
  * if `validate_extraction_results` takes its early `return True, None`,
    the caller's 6-way unpacking raises `ValueError`, which the enclosing
    `try`/`except` turns into `return False`;
  * on `comparison_1 == comparison_2`, save the CSV and `return True`;
  * otherwise log the differences, `attempt += 1` — and then hit the
    `return True` at line 389, which is indented at loop-body level and so
    exits the function (the loop never iterates after a comparison);
  * when fuel runs out (`attempt > max_attempts`), fall through to the
    final `return False`. -/
def processLoop (env : Nat → CallOutcome) :
    Nat → Nat → Nat → Nat → Nat → ProcTrace
  | 0, _, _, calls, comps => ⟨false, none, calls, comps⟩
  | fuel + 1, attempt, callIdx, calls, comps =>
    match (env callIdx).rowsOf, (env (callIdx + 1)).rowsOf with
    | some d1, some d2 =>
      match validate_extraction_results d1 d2 attempt maxAttemptsConst with
      | .retrySignal => ⟨false, none, calls + 2, comps⟩
      | .sixTuple f1 _f2 _n1 _n2 c1 c2 =>
        if c1 = c2 then ⟨true, some f1, calls + 2, comps + 1⟩
        else ⟨true, none, calls + 2, comps + 1⟩
    | _, _ => processLoop env fuel (attempt + 1) (callIdx + 2) (calls + 2) comps

/-- `process_single_report` from `src/src/04b_LLM_Extraction_Supabase.py`
(lines 275-397), restricted to its extraction loop: the metadata, local
file and database bookkeeping before the loop are environment glue outside
this core. -/
def process_single_report (env : Nat → CallOutcome) : ProcTrace :=
  processLoop env maxAttemptsConst 1 0 0 0

/-!
`extract_table_with_gemini` / `parse_gemini_response` from
`src/src/utils/gemini_extractor.py`.  The Gemini response object is reduced
to the one attribute the pipeline reads: `parsed` (a typed row list or
`None`).  A `GeminiEnv` fixes the behaviour of the external effects of one
call — `Image.open` and the two `client.models.generate_content` call
sites — each either producing a value or raising (the `Except.error`
carries `str(e)`). -/

structure GeminiResponse where
  parsed : Option (List Row)
deriving DecidableEq, Repr

structure GeminiEnv where
  openImage : Except String Unit
  generateA : Except String GeminiResponse
  generateB : Except String GeminiResponse

/-- The first hard-coded model name at line 59. -/
def GEMINI_MODEL_A : String := "gemini-2.0-flash"

/-- The second hard-coded model name at line 68. -/
def GEMINI_MODEL_B : String := "gemini-2.5-flash-preview-04-17"

/-- The model name `main()` in `src/src/04b_LLM_Extraction_Supabase.py`
passes to `process_reports_from_supabase` (line 450). -/
def MAIN_MODEL_NAME : String := "gemini-3-flash-preview"

/-- The message of the `UnboundLocalError`/`NameError` raised by
`return True, response` when neither `if` branch assigned `response`. -/
def unboundResponseMsg : String :=
  "cannot access local variable response where it is not associated with a value"

/-- The `try` body of `extract_table_with_gemini`: open the image, then
dispatch on the model name.  There is no `else` branch in the source, so
for any other model name the trailing `return True, response` reads the
never-assigned local `response` and raises. -/
def extractBody (env : GeminiEnv) (modelName : String) : Except String GeminiResponse :=
  match env.openImage with
  | .error e => .error e
  | .ok _ =>
    if modelName = GEMINI_MODEL_A then env.generateA
    else if modelName = GEMINI_MODEL_B then env.generateB
    else .error unboundResponseMsg

/-- The value returned by `extract_table_with_gemini`: the response on
success, `str(e)` on failure. -/
inductive ExtractRet where
  | resp (r : GeminiResponse)
  | errMsg (e : String)
deriving DecidableEq, Repr

/-- `extract_table_with_gemini(image_path, model_name)` from
`src/src/utils/gemini_extractor.py` (lines 43-82): the whole body is inside
`try: ... except Exception as e: return False, str(e)`. -/
def extract_table_with_gemini (env : GeminiEnv) (modelName : String) :
    Bool × ExtractRet :=
  match extractBody env modelName with
  | .ok r => (true, ExtractRet.resp r)
  | .error e => (false, ExtractRet.errMsg e)

/-- The value returned by `parse_gemini_response`. -/
inductive ParseRet where
  | rows (data : List Row)
  | errMsg (e : String)
deriving DecidableEq, Repr

/-- `parse_gemini_response(response)` from `src/src/utils/gemini_extractor.py`
(lines 85-104); `response = none` models a `None` response object, and the
per-row `model_dump(by_alias=True)` is the identity in this typed model. -/
def parse_gemini_response (response : Option GeminiResponse) : Bool × ParseRet :=
  match response with
  | none => (false, ParseRet.errMsg "Gemini API response is None.")
  | some r =>
    match r.parsed with
    | none => (false, ParseRet.errMsg "Gemini API response has no parsed data.")
    | some tableRows => (true, ParseRet.rows tableRows)

/-- The row-sum threshold in `detect_green_rows`
(`np.where(h_proj_green > 500000)`). -/
def GREEN_ROW_THRESHOLD : Nat := 500000

/-- `detect_green_rows` from `src/src/03b_TableEnhancement_Supabase.py`
(lines 121-130), applied to the per-row highlighted-pixel counts
`h_proj_green` (the mask and row-sum are the caller-side rasterization,
summarised here by the count list): indices whose count exceeds the
threshold; `(800, 4500)` when there are none, else first and last index.
`src/TableEnhancement.py` lines 92-103 inline the same computation. -/
def detect_green_rows (hProjGreen : List Nat) : Nat × Nat :=
  let green_row_indices :=
    (hProjGreen.enum.filter (fun p => GREEN_ROW_THRESHOLD < p.2)).map Prod.fst
  match green_row_indices with
  | [] => (800, 4500)
  | i :: rest => (i, (i :: rest).getLast (List.cons_ne_nil i rest))

/-!
Object-level model of `validate_logical_consistency`'s mutation behaviour.

In Python, `rows` is a list of dict objects; `validated_rows =
copy.deepcopy(rows)` allocates fresh dict objects, and every write in the
function targets `validated_rows[i]`.  The heap model makes this explicit:
dict objects live at addresses in a heap list, the caller's row objects
occupy addresses `0..n-1`, the deep copy allocates fresh addresses
`n..2n-1`, and iteration `i` of the loop overwrites the object at address
`n + i` with the repaired row (all of iteration `i`'s field writes hit that
single object, and every value it reads was read before any of its writes,
so one combined update per iteration is exact). -/

def heapGo (n : Nat) : Nat → Nat → List Row → List Row
  | _, 0, heap => heap
  | i, fuel + 1, heap =>
    let r := heap.getD (n + i) default
    heapGo n (i + 1) fuel (heap.set (n + i) (validateRow i r).1)

/-- Run `validate_logical_consistency rows` on the object heap: deep-copy,
then perform the loop's writes; returns the final heap. -/
def validateHeapRun (rows : List Row) : List Row :=
  heapGo rows.length 0 rows.length (rows ++ rows)

/-! Concrete rows and call environments used by the concrete theorems. -/

/-- A valid row: 10 ≥ 5 ≥ 1. -/
def rowEdoA : Row := ⟨"Edo", "10", "5", "2", "1", "1"⟩

/-- A valid row differing from `rowEdoA` in the compared Suspected field. -/
def rowEdoB : Row := ⟨"Edo", "11", "5", "2", "1", "1"⟩

/-- An invalid row: Suspected 3 < Confirmed 7. -/
def rowOndoInvalid : Row := ⟨"Ondo", "3", "7", "", "", "1"⟩

/-- A row whose `Confirmed < Deaths` repair breaks `Suspected ≥ Confirmed`:
5 ≥ 3 holds, 3 < 10 makes the validator set Confirmed to 10 > 5. -/
def rowCascade : Row := ⟨"Adamawa", "5", "3", "", "", "10"⟩

/-- A valid row. -/
def rowBauchi : Row := ⟨"Bauchi", "12", "8", "1", "0", "2"⟩

/-- A valid row. -/
def rowBorno : Row := ⟨"Borno", "7", "3", "0", "0", "1"⟩

/-- A Total row whose non-State fields are all blank. -/
def rowTotalBlank : Row := ⟨"Total", "", "", "", "", ""⟩

/-- A row whose state name contains a hyphen. -/
def rowHyphen : Row := ⟨"A-b", "1", "", "", "", ""⟩

/-- A row whose state name contains a character that sorts between the
space and the hyphen, so that replacing the hyphen with a space changes
the relative order of the two names. -/
def rowBang : Row := ⟨"A!x", "2", "", "", "", ""⟩

/-- Every extraction call succeeds and parses; the two calls of each pair
return valid rows that disagree on a compared field. -/
def envAlwaysDisagree : Nat → CallOutcome :=
  fun k => if k % 2 = 0 then CallOutcome.rowsOk [rowEdoA] else CallOutcome.rowsOk [rowEdoB]

/-- Every extraction call succeeds and parses, always returning the same
invariant-violating rows, so both sides of every pair fail validation. -/
def envBothInvalid : Nat → CallOutcome := fun _ => CallOutcome.rowsOk [rowOndoInvalid]

/-- First call returns valid rows, second call invalid rows. -/
def envOneValid : Nat → CallOutcome :=
  fun k => if k = 0 then CallOutcome.rowsOk [rowEdoA] else CallOutcome.rowsOk [rowOndoInvalid]

/-- First call returns valid rows, second call invalid rows (witness copy
with different data). -/
def envOneValidW : Nat → CallOutcome :=
  fun k => if k = 0 then CallOutcome.rowsOk [rowBauchi] else CallOutcome.rowsOk [rowOndoInvalid]

/-- A Gemini environment in which every external effect succeeds. -/
def geminiEnvOk : GeminiEnv :=
  ⟨Except.ok (), Except.ok ⟨some [rowEdoA]⟩, Except.ok ⟨some [rowEdoA]⟩⟩


/-!
Helper lemmas.  First: `str(n)` / `int(...)` round-trip for the repaired
values written back by `validate_logical_consistency` (all written values
are non-negative).
-/
theorem parseDigitsAux_append (xs ys : List Char) (acc : Nat) :
    parseDigitsAux (xs ++ ys) acc =
      match parseDigitsAux xs acc with
      | some a => parseDigitsAux ys a
      | none => none := by
  induction xs generalizing acc with
  | nil => rfl
  | cons c cs ih =>
    show parseDigitsAux (c :: (cs ++ ys)) acc = _
    by_cases h : c.isDigit
    · simp only [parseDigitsAux, h, if_true]
      exact ih (acc * 10 + (c.toNat - 48))
    · simp only [parseDigitsAux, h, Bool.false_eq_true, if_false]

theorem digitChar_isDigit (d : Nat) (h : d < 10) : (digitChar d).isDigit = true := by
  interval_cases d <;> decide

theorem digitChar_val (d : Nat) (h : d < 10) : (digitChar d).toNat - 48 = d := by
  interval_cases d <;> decide

theorem parseDigitsAux_natToCharsAux (fuel : Nat) :
    ∀ n acc, n < fuel →
      parseDigitsAux (natToCharsAux fuel n) acc =
        some (acc * 10 ^ (natToCharsAux fuel n).length + n) := by
  induction fuel with
  | zero => exact fun n acc h => absurd h (by omega)
  | succ fuel ih =>
    intro n acc h
    by_cases hn : n < 10
    · simp only [natToCharsAux, hn, if_true, parseDigitsAux,
        digitChar_isDigit n hn, if_true, digitChar_val n hn, List.length_cons,
        List.length_nil, pow_one]
      norm_num
    · have hdiv : n / 10 < fuel := by
        have h1 : n / 10 < n := Nat.div_lt_self (by omega) (by omega)
        omega
      have hmod : n % 10 < 10 := Nat.mod_lt _ (by omega)
      simp only [natToCharsAux, hn, Bool.false_eq_true, if_false,
        parseDigitsAux_append, ih (n / 10) acc hdiv, parseDigitsAux,
        digitChar_isDigit _ hmod, if_true, digitChar_val _ hmod,
        List.length_append, List.length_cons, List.length_nil, Nat.zero_add]
      have h2 : n / 10 * 10 + n % 10 = n := by omega
      congr 1
      calc (acc * 10 ^ (natToCharsAux fuel (n / 10)).length + n / 10) * 10 + n % 10
          = acc * (10 ^ (natToCharsAux fuel (n / 10)).length * 10) +
              (n / 10 * 10 + n % 10) := by ring
        _ = acc * 10 ^ ((natToCharsAux fuel (n / 10)).length + 1) + n := by
              rw [h2, pow_succ]

theorem natToChars_digits (fuel : Nat) :
    ∀ n, ∀ c ∈ natToCharsAux fuel n, c.isDigit = true := by
  induction fuel with
  | zero => intro n c hc; simp [natToCharsAux] at hc
  | succ fuel ih =>
    intro n c hc
    by_cases hn : n < 10
    · simp only [natToCharsAux, hn, if_true, List.mem_singleton] at hc
      subst hc; exact digitChar_isDigit n hn
    · simp only [natToCharsAux, hn, Bool.false_eq_true, if_false,
        List.mem_append, List.mem_singleton] at hc
      rcases hc with hc | hc
      · exact ih (n / 10) c hc
      · subst hc; exact digitChar_isDigit _ (Nat.mod_lt _ (by omega))

theorem natToChars_ne_nil (n : Nat) : natToChars n ≠ [] := by
  unfold natToChars natToCharsAux
  by_cases hn : n < 10 <;> simp [hn]

theorem parseDigits_natToChars (n : Nat) : parseDigits (natToChars n) = some n := by
  have h := parseDigitsAux_natToCharsAux (n + 1) n 0 (by omega)
  unfold parseDigits
  rw [if_neg (by simpa using natToChars_ne_nil n)]
  unfold natToChars at *
  simpa using h

theorem digit_not_space (c : Char) (h : c.isDigit = true) : isPySpace c = false := by
  have h1 : c ≠ ' ' := by rintro rfl; exact absurd h (by decide)
  have h2 : c ≠ '\t' := by rintro rfl; exact absurd h (by decide)
  have h3 : c ≠ '\n' := by rintro rfl; exact absurd h (by decide)
  have h4 : c ≠ '\r' := by rintro rfl; exact absurd h (by decide)
  have h5 : c ≠ '\x0b' := by rintro rfl; exact absurd h (by decide)
  have h6 : c ≠ '\x0c' := by rintro rfl; exact absurd h (by decide)
  simp [isPySpace, h1, h2, h3, h4, h5, h6]

theorem dropWhile_eq_self_of_head (p : Char → Bool) (l : List Char)
    (h : ∀ c ∈ l, p c = false) : l.dropWhile p = l := by
  cases l with
  | nil => rfl
  | cons c cs =>
    rw [List.dropWhile_cons]
    simp [h c (by simp)]

theorem stripChars_of_digits (l : List Char) (h : ∀ c ∈ l, c.isDigit = true) :
    stripChars l = l := by
  unfold stripChars
  rw [dropWhile_eq_self_of_head _ l (fun c hc => digit_not_space c (h c hc)),
    dropWhile_eq_self_of_head _ l.reverse
      (fun c hc => digit_not_space c (h c (List.mem_reverse.mp hc))),
    List.reverse_reverse]

theorem parseField_intStr (n : Int) (h : 0 ≤ n) : parseField (intStr n) = some n := by
  have hdig := natToChars_digits (n.natAbs + 1)
  have hstr : intStr n = ⟨natToChars n.natAbs⟩ := by
    unfold intStr
    rw [if_neg (by omega)]
  have hchars : ∀ c ∈ natToChars n.natAbs, c.isDigit = true := fun c hc =>
    hdig n.natAbs c hc
  have hstrip : stripChars (natToChars n.natAbs) = natToChars n.natAbs :=
    stripChars_of_digits _ hchars
  unfold parseField stripOrZero pyStrip pyInt
  rw [hstr]
  simp only [hstrip]
  rw [if_neg (by
    intro hempty
    exact natToChars_ne_nil n.natAbs (by
      have := congrArg String.data hempty
      simpa using this))]
  simp only [hstrip]
  cases hm : natToChars n.natAbs with
  | nil => exact absurd hm (natToChars_ne_nil n.natAbs)
  | cons c rest =>
    have hc : c.isDigit = true := hchars c (by rw [hm]; simp)
    have hplus : ¬ c = '+' := by rintro rfl; exact absurd hc (by decide)
    have hminus : ¬ c = '-' := by rintro rfl; exact absurd hc (by decide)
    rw [pyIntAux, if_neg hplus, if_neg hminus, ← hm, parseDigits_natToChars]
    simp [Int.natAbs_of_nonneg h]

theorem fieldVal_intStr (n : Int) (h : 0 ≤ n) : fieldVal (intStr n) = n := by
  unfold fieldVal
  rw [parseField_intStr n h]
  rfl

theorem fieldVal_intStr_max (n : Int) : fieldVal (intStr (max 0 n)) = max 0 n :=
  fieldVal_intStr _ (le_max_left 0 n)


/-!
Order lemmas for the sort comparison, and registration of the instances
`List.sorted_insertionSort` needs.
-/

theorem charListLe_total (a : List Char) :
    ∀ b, charListLe a b = true ∨ charListLe b a = true := by
  induction a with
  | nil => intro b; exact Or.inl rfl
  | cons c cs ih =>
    intro b
    cases b with
    | nil => exact Or.inr rfl
    | cons d ds =>
      simp only [charListLe]
      by_cases h1 : c.toNat < d.toNat
      · exact Or.inl (by simp [h1])
      · by_cases h2 : d.toNat < c.toNat
        · exact Or.inr (by simp [h2])
        · rcases ih ds with h | h
          · exact Or.inl (by simp [h1, h2, h])
          · exact Or.inr (by simp [h1, h2, h])

theorem charListLe_trans (a : List Char) :
    ∀ b c, charListLe a b = true → charListLe b c = true → charListLe a c = true := by
  induction a with
  | nil => intro _ _ _ _; rfl
  | cons x xs ih =>
    intro b c hab hbc
    cases b with
    | nil => simp [charListLe] at hab
    | cons y ys =>
      cases c with
      | nil => simp [charListLe] at hbc
      | cons z zs =>
        simp only [charListLe] at hab hbc ⊢
        split_ifs at hab hbc ⊢ <;>
          first
            | rfl
            | omega
            | exact ih ys zs hab hbc

instance : IsTotal Row rowLe where
  total a b := charListLe_total (sortKey a).data (sortKey b).data

instance : IsTrans Row rowLe where
  trans a _ _ hab hbc := charListLe_trans (sortKey a).data _ _ hab hbc

/-!
Characterization of `validateRow`: the values of the repaired row, the
emptiness of its message list, and the fact that a message-free row is
returned unchanged.
-/

theorem validateRow_spec (i : Nat) (r : Row) (hskip : skipRow r = false) :
    fieldVal (validateRow i r).1.Suspected =
        max (max 0 (fieldVal r.Suspected)) (max 0 (fieldVal r.Confirmed)) ∧
    fieldVal (validateRow i r).1.Confirmed =
        max (max 0 (fieldVal r.Confirmed)) (max 0 (fieldVal r.Deaths)) ∧
    fieldVal (validateRow i r).1.Deaths = max 0 (fieldVal r.Deaths) := by
  unfold validateRow
  simp only [hskip, Bool.false_eq_true, if_false]
  rcases hS : parseField r.Suspected with _ | nS <;>
    rcases hC : parseField r.Confirmed with _ | nC <;>
      rcases hD : parseField r.Deaths with _ | nD <;>
        simp only [fieldVal, hS, hC, hD, Option.getD_some, Option.getD_none] <;>
          split_ifs <;>
            simp_all [fieldVal_intStr_max, fieldVal_intStr, fieldVal, parseField_intStr] <;>
              omega

theorem validateRow_msgs_nil (i : Nat) (r : Row) :
    (validateRow i r).2 = [] ↔ rowViolates r = false := by
  unfold validateRow rowViolates
  by_cases hskip : skipRow r
  · simp [hskip]
  · simp only [hskip, Bool.false_eq_true, if_false, Bool.not_false, Bool.true_and]
    rcases hS : parseField r.Suspected with _ | nS <;>
      rcases hC : parseField r.Confirmed with _ | nC <;>
        rcases hD : parseField r.Deaths with _ | nD <;>
          simp only [fieldVal, hS, hC, hD, Option.getD_some, Option.getD_none,
            Option.isNone_some, Option.isNone_none] <;>
            split_ifs <;> (simp_all; try omega)

theorem validateRow_valid_unchanged (i : Nat) (r : Row)
    (h : (validateRow i r).2 = []) : (validateRow i r).1 = r := by
  unfold validateRow at *
  by_cases hskip : skipRow r
  · simp [hskip]
  · simp only [hskip, Bool.false_eq_true, if_false] at *
    rcases hS : parseField r.Suspected with _ | nS <;>
      rcases hC : parseField r.Confirmed with _ | nC <;>
        rcases hD : parseField r.Deaths with _ | nD <;>
          simp only [hS, hC, hD] at h ⊢ <;>
            split_ifs at h ⊢ <;> simp_all

/-! The same facts lifted to the whole list. -/

theorem validateFrom_getElem (rows : List Row) :
    ∀ i j, (validateFrom i rows).1[j]? =
      (rows[j]?).map (fun r => (validateRow (i + j) r).1) := by
  induction rows with
  | nil => intro i j; simp [validateFrom]
  | cons r rs ih =>
    intro i j
    cases j with
    | zero => simp [validateFrom]
    | succ j =>
      have harith : i + (j + 1) = (i + 1) + j := by omega
      simp only [validateFrom, List.getElem?_cons_succ, ih (i + 1) j, harith]

theorem validateFrom_msgs_nil (rows : List Row) :
    ∀ i, ((validateFrom i rows).2 = [] ↔ rows.all (fun r => !rowViolates r) = true) := by
  induction rows with
  | nil => intro i; simp [validateFrom]
  | cons r rs ih =>
    intro i
    simp only [validateFrom, List.append_eq_nil, List.all_cons, Bool.and_eq_true,
      validateRow_msgs_nil i r, ih (i + 1), Bool.not_eq_true']

theorem validate_fst_eq (rows : List Row) :
    (validate_logical_consistency rows).1 = rows.all (fun r => !rowViolates r) := by
  rw [Bool.eq_iff_iff]
  unfold validate_logical_consistency
  simpa using validateFrom_msgs_nil rows 0

theorem validate_fst_iff (rows : List Row) :
    ((validate_logical_consistency rows).1 = false ↔ rows.any rowViolates = true) := by
  rw [validate_fst_eq]
  simp only [List.all_eq_false, List.any_eq_true, Bool.not_eq_true]
  constructor
  · rintro ⟨x, hx, hv⟩
    exact ⟨x, hx, by simpa using hv⟩
  · rintro ⟨x, hx, hv⟩
    exact ⟨x, hx, by simp [hv]⟩

theorem validate_sndfst_getElem (rows : List Row) (j : Nat) :
    (validate_logical_consistency rows).2.1[j]? =
      (rows[j]?).map (fun r => (validateRow j r).1) := by
  unfold validate_logical_consistency
  simpa using validateFrom_getElem rows 0 j

theorem validateFrom_valid_unchanged (rows : List Row) :
    ∀ i, (validateFrom i rows).2 = [] → (validateFrom i rows).1 = rows := by
  induction rows with
  | nil => intro i _; rfl
  | cons r rs ih =>
    intro i h
    simp only [validateFrom, List.append_eq_nil] at h ⊢
    rw [validateRow_valid_unchanged i r h.1, ih (i + 1) h.2]

theorem validate_valid_unchanged (rows : List Row)
    (h : (validate_logical_consistency rows).1 = true) :
    (validate_logical_consistency rows).2.1 = rows := by
  unfold validate_logical_consistency at *
  simp only [List.isEmpty_eq_true] at h
  exact validateFrom_valid_unchanged rows 0 h

/-! Frame lemmas for the heap model. -/

theorem take_set_of_le (l : List Row) (j n : Nat) (a : Row) (h : n ≤ j) :
    (l.set j a).take n = l.take n := by
  apply List.ext_getElem
  · simp
  · intro k h1 h2
    simp only [List.getElem_take]
    have hjk : j ≠ k := by
      have := List.length_take_le n l
      omega
    rw [List.getElem_set_ne hjk]

theorem heapGo_take (n : Nat) :
    ∀ fuel i heap, (heapGo n i fuel heap).take n = heap.take n := by
  intro fuel
  induction fuel with
  | zero => intro i heap; rfl
  | succ fuel ih =>
    intro i heap
    rw [heapGo, ih (i + 1), take_set_of_le _ _ _ _ (by omega)]

/-!
The ten claims.
-/

/-- Claim C1 (code_bug evidence): with an environment whose two extraction
calls always succeed, parse and validate but disagree on the comparison
fields, `process_single_report` makes only one attempt (2 extraction
calls), persists nothing — and returns `True`.  The claim (and the
source's own comments and final-failure log) expect three attempts and a
`False` result: the `return True` at line 389 of
`src/src/04b_LLM_Extraction_Supabase.py` sits at loop-body level and exits
the function right after the first disagreeing comparison. -/
theorem disagreement_exits_after_first_attempt :
    process_single_report envAlwaysDisagree =
      ⟨true, none, 2, 1⟩ ∧ maxAttemptsConst = 3 := by
  exact ⟨by decide, rfl⟩

/-- Claim C2 (code_bug evidence): `filter_comparison_columns` applied to a
two-row list returns a one-element list (only the first row, restricted to
the four comparison fields), and applied to an empty list returns Python
`None` — not a list of the input's length: its `return` statement is
indented inside the row loop. -/
theorem filter_comparison_returns_after_first_row :
    filter_comparison_columns [rowBauchi, rowBorno] = some [⟨"Bauchi", "12", "8", "2"⟩] ∧
      filter_comparison_columns ([] : List Row) = none := by
  decide

/-- Claim C3 (code_bug evidence): when both extraction results fail
validation on the first attempt (budget remaining), the run ends
immediately with `False` after 2 extraction calls instead of retrying:
`validate_extraction_results` returns the 2-tuple `(True, None)` which the
caller unpacks into six variables, raising `ValueError`; the blanket
`except` turns that into `return False`. -/
theorem both_invalid_crashes_to_false :
    process_single_report envBothInvalid = ⟨false, none, 2, 0⟩ := by
  decide

/-- Claim C4 counterexample: on the row (Suspected 5, Confirmed 3,
Deaths 10) the validator repairs Confirmed up to 10 and returns a row with
Suspected 5 < Confirmed 10, so the repaired rows do not always satisfy
`Suspected ≥ Confirmed ≥ Deaths`. -/
theorem validator_repair_cascade_counterexample :
    ((validate_logical_consistency [rowCascade]).2.1.map
        fun r => (fieldVal r.Suspected, fieldVal r.Confirmed, fieldVal r.Deaths)) =
        [(5, 10, 10)] ∧
      ¬ ((5 : Int) ≥ 10) := by
  decide

/-- Claim C4 (amended): for every inspected input row (non-blank,
non-Total state) the repaired row satisfies `Confirmed ≥ Deaths`, and
satisfies `Suspected ≥ Confirmed` whenever the clamped input values do not
have both `Confirmed < Deaths` and `Suspected < Deaths`; and `is_valid` is
`false` iff some input row trips a validation error site
(`rowViolates`). -/
theorem validator_spec_amended (rows : List Row) (i : Nat) (r r2 : Row)
    (hr : rows[i]? = some r)
    (hr2 : (validate_logical_consistency rows).2.1[i]? = some r2)
    (hskip : skipRow r = false) :
    fieldVal r2.Confirmed ≥ fieldVal r2.Deaths ∧
    (max 0 (fieldVal r.Confirmed) ≥ max 0 (fieldVal r.Deaths) ∨
        max 0 (fieldVal r.Suspected) ≥ max 0 (fieldVal r.Deaths) →
      fieldVal r2.Suspected ≥ fieldVal r2.Confirmed) ∧
    ((validate_logical_consistency rows).1 = false ↔ rows.any rowViolates = true) := by
  have hge := validate_sndfst_getElem rows i
  rw [hr, hr2] at hge
  simp only [Option.map_some, Option.map_some', Option.some.injEq] at hge
  obtain ⟨hS, hC, hD⟩ := validateRow_spec i r hskip
  rw [hge, hS, hC, hD]
  refine ⟨by omega, fun hcd => by omega, validate_fst_iff rows⟩

/-- Claim C4 witness: `validator_spec_amended` applied to the singleton
list holding the valid row `rowEdoA`. -/
theorem validator_spec_amended_witness :
    fieldVal rowEdoA.Confirmed ≥ fieldVal rowEdoA.Deaths ∧
    (max 0 (fieldVal rowEdoA.Confirmed) ≥ max 0 (fieldVal rowEdoA.Deaths) ∨
        max 0 (fieldVal rowEdoA.Suspected) ≥ max 0 (fieldVal rowEdoA.Deaths) →
      fieldVal rowEdoA.Suspected ≥ fieldVal rowEdoA.Confirmed) ∧
    ((validate_logical_consistency [rowEdoA]).1 = false ↔
      [rowEdoA].any rowViolates = true) :=
  validator_spec_amended [rowEdoA] 0 rowEdoA rowEdoA (by decide) (by decide) (by decide)

/-- Claim C5 counterexample: with the first extraction valid and the
second invalid, the run does accept on that attempt with the valid
extraction's rows — but the trace records one evaluation of the
`comparison_1 == comparison_2` check, so the comparison step is invoked
(on two copies of the valid data), contrary to the claim's "without
invoking the comparison step". -/
theorem one_valid_comparison_still_runs :
    process_single_report envOneValid = ⟨true, some [rowEdoA], 2, 1⟩ := by
  decide

/-- Claim C5 (amended): when the first pair of calls succeeds and exactly
one of the two results passes validation, `process_single_report` accepts
on that attempt with the valid result's data used for both sides; the
comparison step still runs exactly once, but on two copies of the valid
data, so it trivially succeeds. -/
theorem one_valid_accepts (env : Nat → CallOutcome) (d1 d2 : List Row)
    (h0 : (env 0).rowsOf = some d1) (h1 : (env 1).rowsOf = some d2)
    (hex : (validate_logical_consistency d1).1 ≠ (validate_logical_consistency d2).1) :
    process_single_report env =
      ⟨true, some (if (validate_logical_consistency d1).1 then d1 else d2), 2, 1⟩ := by
  unfold process_single_report maxAttemptsConst
  rw [show (3 : Nat) = 2 + 1 from rfl, processLoop]
  rw [h0]
  rw [show (0 + 1 : Nat) = 1 from rfl, h1]
  simp only
  rcases hv1 : (validate_logical_consistency d1).1 with _ | _ <;>
    rcases hv2 : (validate_logical_consistency d2).1 with _ | _
  · exact absurd (hv1.trans hv2.symm) hex
  · unfold validate_extraction_results
    simp only [hv1, hv2, Bool.not_true, Bool.not_false, Bool.false_and, Bool.and_false,
      Bool.true_and, Bool.and_true, Bool.false_eq_true, if_false, if_true,
      validate_valid_unchanged d2 hv2]
  · unfold validate_extraction_results
    simp only [hv1, hv2, Bool.not_true, Bool.not_false, Bool.false_and, Bool.and_false,
      Bool.true_and, Bool.and_true, Bool.false_eq_true, if_false, if_true,
      validate_valid_unchanged d1 hv1]
  · exact absurd (hv1.trans hv2.symm) hex

/-- Claim C5 witness: `one_valid_accepts` on a concrete environment whose
first call yields the valid `rowBauchi` rows and whose second yields the
invalid `rowOndoInvalid` rows. -/
theorem one_valid_accepts_witness :
    process_single_report envOneValidW = ⟨true, some [rowBauchi], 2, 1⟩ := by
  have h := one_valid_accepts envOneValidW [rowBauchi] [rowOndoInvalid] rfl rfl (by decide)
  simpa using h

/-- Claim C6 counterexample: normalizing `[rowTotalBlank, rowHyphen,
rowBang]` yields state order `["a!x", "a b", "total"]`: the all-blank
Total row is kept (the claim says rows with all-blank non-State fields are
dropped), and the first two rows are not in the claimed order, because the
sort key is the lower-cased name without hyphen replacement — under the
claimed hyphen-replaced key, `rowHyphen`'s key "a b" sorts strictly before
`rowBang`'s key "a!x". -/
theorem sort_normalize_counterexample :
    (normalize_state_names (sort_table_rows [rowTotalBlank, rowHyphen, rowBang])).map
        Row.States = ["a!x", "a b", "total"] ∧
      claimKeyLe rowBang.States rowHyphen.States = false ∧
      claimKeyLe rowHyphen.States rowBang.States = true ∧
      hasNonStateContent rowTotalBlank = false := by
  decide

/-- Claim C6 (amended): the comparison-normalization step drops non-Total
rows whose state is blank or whose non-State fields are all blank (Total
rows are kept regardless), orders the kept non-Total rows ascending by the
stripped lower-cased state name — `rowLe`, with no hyphen replacement in
the key — and places the Total rows last; hyphen replacement and
lower-casing of the output names happen afterwards, in
`normalize_state_names`, without re-sorting. -/
theorem sort_normalize_spec (rows : List Row) :
    normalize_state_names (sort_table_rows rows) =
      (List.insertionSort rowLe (rows.filter keepRow)).map normalizeRow ++
        (rows.filter isTotalRow).map normalizeRow
    ∧ List.Sorted rowLe (List.insertionSort rowLe (rows.filter keepRow))
    ∧ (List.insertionSort rowLe (rows.filter keepRow)).Perm (rows.filter keepRow) :=
  ⟨by simp [normalize_state_names, sort_table_rows], List.sorted_insertionSort rowLe _,
    List.perm_insertionSort rowLe _⟩

/-- Claim C7: `extract_table_with_gemini` never raises — for every
behaviour of the external effects, either the body raised and the function
returns `(False, str(e))`, or the body succeeded and it returns
`(True, response)`. -/
theorem extract_never_raises (env : GeminiEnv) (modelName : String) :
    (∃ e, extractBody env modelName = Except.error e ∧
        extract_table_with_gemini env modelName = (false, ExtractRet.errMsg e)) ∨
    (∃ r, extractBody env modelName = Except.ok r ∧
        extract_table_with_gemini env modelName = (true, ExtractRet.resp r)) := by
  cases h : extractBody env modelName with
  | ok r =>
    exact Or.inr ⟨r, rfl, by unfold extract_table_with_gemini; rw [h]⟩
  | error e =>
    exact Or.inl ⟨e, rfl, by unfold extract_table_with_gemini; rw [h]⟩

/-- Claim C8: whenever no row's highlighted-pixel count exceeds the
500000 threshold, `detect_green_rows` returns exactly `(800, 4500)` (and,
being a total function, does not fail). -/
theorem no_green_rows_fallback (hProj : List Nat)
    (h : ∀ x ∈ hProj, x ≤ GREEN_ROW_THRESHOLD) :
    detect_green_rows hProj = (800, 4500) := by
  unfold detect_green_rows
  have hfil : ∀ n l, (∀ x ∈ l, x ≤ GREEN_ROW_THRESHOLD) →
      (List.enumFrom n l).filter (fun p => GREEN_ROW_THRESHOLD < p.2) = [] := by
    intro n l
    induction l generalizing n with
    | nil => intro _; rfl
    | cons x xs ih =>
      intro hl
      have hx : ¬ GREEN_ROW_THRESHOLD < x := by
        have := hl x (by simp)
        omega
      simp only [List.enumFrom, List.filter_cons]
      simp [hx, ih (n + 1) (fun y hy => hl y (by simp [hy]))]
  rw [show hProj.enum = List.enumFrom 0 hProj from rfl, hfil 0 hProj h]
  rfl

/-- Claim C8 witness: a page whose three row counts are all at or below
the threshold. -/
theorem no_green_rows_fallback_witness :
    detect_green_rows [0, 1, 500000] = (800, 4500) :=
  no_green_rows_fallback [0, 1, 500000] (by decide)

/-- Claim C9: for any model identifier other than the two hard-coded
names, `extract_table_with_gemini` returns success `false` for every
environment behaviour (the trailing `return True, response` reads a local
that was never assigned and raises); in particular extraction always fails
for the `"gemini-3-flash-preview"` name that `main()` passes. -/
theorem unknown_model_always_fails (env : GeminiEnv) (modelName : String)
    (hA : modelName ≠ GEMINI_MODEL_A) (hB : modelName ≠ GEMINI_MODEL_B) :
    (extract_table_with_gemini env modelName).1 = false ∧
      (extract_table_with_gemini env MAIN_MODEL_NAME).1 = false := by
  constructor
  · unfold extract_table_with_gemini extractBody
    cases env.openImage <;> simp [hA, hB]
  · unfold extract_table_with_gemini extractBody
    cases env.openImage <;>
      simp [show MAIN_MODEL_NAME ≠ GEMINI_MODEL_A from by decide,
        show MAIN_MODEL_NAME ≠ GEMINI_MODEL_B from by decide]

/-- Claim C9 witness: the all-effects-succeed environment with the model
name `main()` uses. -/
theorem unknown_model_always_fails_witness :
    (extract_table_with_gemini geminiEnvOk MAIN_MODEL_NAME).1 = false ∧
      (extract_table_with_gemini geminiEnvOk MAIN_MODEL_NAME).1 = false :=
  unknown_model_always_fails geminiEnvOk MAIN_MODEL_NAME (by decide) (by decide)

/-- Claim C10: running `validate_logical_consistency` on the object heap
leaves the caller's row objects (the first `rows.length` heap cells)
untouched: every write of the loop targets the fresh cells allocated by
`copy.deepcopy`. -/
theorem validate_input_unchanged (rows : List Row) :
    (validateHeapRun rows).take rows.length = rows := by
  unfold validateHeapRun
  rw [heapGo_take]
  exact List.take_left rows rows

end LF
